import Mathlib

/-!
Verification of the core of `process_documents.py`: a heading-aware PDF
chunker (`parse_pdfs`), a keyword-based domain classifier (`detect_domain`),
and a domain-aware relevance scorer (`apply_intelligent_scoring`).

The PDF extraction library and the embedding model are external
collaborators; they are modelled at their interface: extraction yields, per
page, blocks of lines of spans (text plus font size), and may raise partway
through a document; the embedding-based similarity of a text against the
fixed query is abstracted as an oracle `sim : String → ℚ` (exact arithmetic
stands in for IEEE floats throughout).  Python text primitives used by the
code (`str.lower`, `str.split()`, `str.strip`, `str.endswith`, substring
`in`) are given structural implementations over the character list of a
`String` so that concrete runs reduce in the kernel; the keyword vocabularies
involved are ASCII, where these agree with Python's Unicode versions.
-/

namespace ProcessDocuments

/-- ASCII lower-casing of one character, as Python `str.lower` acts on the
ASCII range (all vocabulary matched by the program is ASCII). -/
def lowerChar (c : Char) : Char :=
  if 65 ≤ c.toNat ∧ c.toNat ≤ 90 then Char.ofNat (c.toNat + 32) else c

/-- Models Python `s.lower()`. -/
def strLower (s : String) : String := String.mk (s.data.map lowerChar)

/-- The whitespace characters recognised by Python `str.split()` /
`str.strip()` (ASCII portion). -/
def isSpaceChar (c : Char) : Bool :=
  c == ' ' || c == '\t' || c == '\n' || c == '\r' || c == '\x0b' || c == '\x0c'

/-- Worker for `pySplit`: splits on whitespace runs, dropping empty pieces. -/
def splitWsAux : List Char → List Char → List String
  | [], [] => []
  | [], acc => [String.mk acc.reverse]
  | c :: cs, acc =>
    if isSpaceChar c then
      (if acc = [] then splitWsAux cs []
       else String.mk acc.reverse :: splitWsAux cs [])
    else splitWsAux cs (c :: acc)

/-- Models Python `s.split()` (split on whitespace runs, no empty words). -/
def pySplit (s : String) : List String := splitWsAux s.data []

/-- Models Python `s.strip()` (whitespace trimmed at both ends). -/
def strTrim (s : String) : String :=
  String.mk (((s.data.dropWhile isSpaceChar).reverse.dropWhile isSpaceChar).reverse)

/-- Models Python `s.strip(":")`: colons removed at both ends. -/
def stripColons (s : String) : String :=
  String.mk (((s.data.dropWhile (· == ':')).reverse.dropWhile (· == ':')).reverse)

/-- Colons removed at the end only (the reading the spec's wording of the
stop-list rule suggests, for comparison with `stripColons`). -/
def stripColonsTrailing (s : String) : String :=
  String.mk ((s.data.reverse.dropWhile (· == ':')).reverse)

/-- Models Python `s.endswith(suff)`. -/
def strEndsWith (s suff : String) : Bool :=
  suff.data.reverse.isPrefixOf s.data.reverse

/-- Models the Python substring test `pat in s`. -/
def strContains (s pat : String) : Bool :=
  s.data.tails.any (fun t => pat.data.isPrefixOf t)

/-- Models Python slicing `s[:n]` (by code point, as `String.data` is). -/
def strTake (s : String) (n : Nat) : String := String.mk (s.data.take n)

/-- Models Python `sep.join(parts)`. -/
def strJoin (sep : String) : List String → String
  | [] => ""
  | [x] => x
  | x :: xs => x ++ sep ++ strJoin sep xs

/-- A text fragment with a font size, as delivered by the extraction layer
(one `span` of the `page.get_text("dict")` structure). -/
structure Span where
  size : ℚ
  text : String
deriving DecidableEq, Repr

/-- One line of a block: a sequence of spans. -/
structure Line where
  spans : List Span
deriving DecidableEq, Repr

/-- One block of a page.  `lines = none` models a block dictionary without a
`'lines'` key (an image block), which the code skips. -/
structure Block where
  lines : Option (List Line)
deriving DecidableEq, Repr

/-- A page is the block list of `page.get_text("dict")["blocks"]`. -/
abbrev Page := List Block

/-- One input document for `parse_pdfs`.  `name` is the basename of the
path; `pages` are the pages the extraction library yields, in order; when
`fails = true` the library raises after yielding exactly those pages (a
corrupted document that fails at `fitz.open` has `pages = []`). -/
structure DocInput where
  name : String
  pages : List Page
  fails : Bool
deriving DecidableEq, Repr

/-- The chunk record appended to `all_chunks` (page number is 1-based). -/
structure Chunk where
  title : String
  text : String
  document : String
  page : Nat
deriving DecidableEq, Repr

/-- A chunk after the scorer has set its `final_score` field. -/
structure ScoredChunk where
  title : String
  text : String
  document : String
  page : Nat
  final_score : ℚ
deriving DecidableEq, Repr

/-! ### `parse_pdfs` -/

/-- The heading stop list of `parse_pdfs`. -/
def heading_stop_list : List String := ["instructions", "ingredients", "directions", "notes"]

/-- All spans of a block with a `'lines'` key, in line-then-span order. -/
def blockSpans (lines : List Line) : List Span := lines.flatMap Line.spans

/-- `" ".join(span['text'] for line in block['lines'] for span in line['spans']).strip()`. -/
def blockTextOf (lines : List Line) : String :=
  strTrim (strJoin " " ((blockSpans lines).map Span.text))

/-- `[span['size'] for b in blocks if 'lines' in b for l in b['lines'] for span in l['spans']]`. -/
def pageFontSizes (blocks : List Block) : List ℚ :=
  ((blocks.filterMap Block.lines).flatMap blockSpans).map Span.size

/-- Models Python `round(q, 1)` (rounding to one decimal place; the
tie-to-even detail of binary floats is immaterial to the program's claims). -/
def round1 (q : ℚ) : ℚ := ((round (q * 10) : ℤ) : ℚ) / 10

/-- Multiplicity of `x` in `l`, as `collections.Counter` counts it. -/
def countOcc (l : List ℚ) (x : ℚ) : Nat := (l.filter (fun y => decide (y = x))).length

/-- The largest multiplicity occurring in `l`. -/
def maxCount (l : List ℚ) : Nat := (l.map (countOcc l)).foldr max 0

/-- Models `Counter(l).most_common(1)[0][0]`: the first element of `l` (first
occurrence = `Counter` insertion order) whose multiplicity is maximal.  The
call site guards against the empty list, where Python would raise. -/
def most_common1 (l : List ℚ) : ℚ :=
  (l.find? (fun x => countOcc l x == maxCount l)).getD 0

/-- `Counter(round(s, 1) for s in font_sizes).most_common(1)[0][0]`. -/
def bodyFontSizeOf (sizes : List ℚ) : ℚ := most_common1 (sizes.map round1)

/-- The rounded font-size population of a page, against which the body font
size is the mode. -/
def roundedSizes (blocks : List Block) : List ℚ := (pageFontSizes blocks).map round1

/-- The `is_heading` test of `parse_pdfs` (font gap, word count, trailing
period, stop list), on the already-rounded first-span size. -/
def is_heading (body_font_size block_font_size : ℚ) (block_text : String) : Bool :=
  decide (body_font_size + 0.5 < block_font_size) &&
  decide ((pySplit block_text).length < 15) &&
  !(strEndsWith block_text ".") &&
  !(decide (stripColons (strLower block_text) ∈ heading_stop_list))

/-- The mutable state of the block walk of one page: the current heading,
the accumulated body fragments, and the chunks appended so far. -/
structure WalkState where
  current_heading : String
  current_text : List String
  chunks : List Chunk
deriving DecidableEq, Repr

/-- `" ".join(current_text)`. -/
def joined_text (st : WalkState) : String := strJoin " " st.current_text

/-- The flush guard of `parse_pdfs`: the accumulator is emitted as one chunk
only when it is nonempty and its joined text has more than 20 words. -/
def flushChunk (doc_name : String) (page_num : Nat) (st : WalkState) : List Chunk :=
  if st.current_text ≠ [] ∧ 20 < (pySplit (joined_text st)).length then
    [{ title := st.current_heading, text := joined_text st,
       document := doc_name, page := page_num + 1 }]
  else []

/-- One iteration of the block loop.  `none` models the `IndexError` raised
by `block['lines'][0]['spans'][0]` when the first line of a block with
nonempty text has no spans (caught by the per-document handler). -/
def processBlock (body_font_size : ℚ) (doc_name : String) (page_num : Nat)
    (st : WalkState) (b : Block) : Option WalkState :=
  match b.lines with
  | none => some st
  | some lines =>
    let block_text := blockTextOf lines
    if block_text = "" then some st
    else
      match lines with
      | [] => some st
      | l0 :: _ =>
        match l0.spans with
        | [] => none
        | s0 :: _ =>
          let block_font_size := round1 s0.size
          if is_heading body_font_size block_font_size block_text then
            some { current_heading := block_text, current_text := [],
                   chunks := st.chunks ++ flushChunk doc_name page_num st }
          else
            some { st with current_text := st.current_text ++ [block_text] }

/-- The block loop of one page; the boolean records whether an exception was
raised (in which case the remaining blocks, and the end-of-page flush, are
skipped, but chunks appended so far are kept). -/
def runBlocks (body_font_size : ℚ) (doc_name : String) (page_num : Nat) :
    WalkState → List Block → WalkState × Bool
  | st, [] => (st, false)
  | st, b :: bs =>
    match processBlock body_font_size doc_name page_num st b with
    | none => (st, true)
    | some st2 => runBlocks body_font_size doc_name page_num st2 bs

/-- One page of the page loop: skip pages without blocks or without spans,
compute the body font size, walk the blocks, and flush the trailing
accumulator unless an exception interrupted the walk. -/
def processPage (doc_name : String) (page_num : Nat) (blocks : List Block) :
    List Chunk × Bool :=
  if blocks = [] then ([], false)
  else if pageFontSizes blocks = [] then ([], false)
  else
    let body := bodyFontSizeOf (pageFontSizes blocks)
    let r := runBlocks body doc_name page_num ⟨"General Information", [], []⟩ blocks
    if r.2 then (r.1.chunks, true)
    else (r.1.chunks ++ flushChunk doc_name page_num r.1, false)

/-- The page loop of one document (`page_num` from `enumerate`); an exception
on a page aborts the rest of the document. -/
def runPages (doc_name : String) : Nat → List Page → List Chunk
  | _, [] => []
  | n, p :: ps =>
    let r := processPage doc_name n p
    if r.2 then r.1 else r.1 ++ runPages doc_name (n + 1) ps

/-- All chunks a document contributes to `all_chunks`.  A raise by the
extraction library after the final yielded page (`fails = true`) is caught
and only logged, so it does not alter the chunks already appended. -/
def docChunks (d : DocInput) : List Chunk := runPages d.name 0 d.pages

/-- `parse_pdfs`: the concatenation over the documents, in order, of the
chunks each contributes. -/
def parse_pdfs (docs : List DocInput) : List Chunk := docs.flatMap docChunks

/-! ### `detect_domain` -/

/-- The travel keyword set of `detect_domain`. -/
def travel_query_words : List String := ["trip", "travel", "vacation", "itinerary", "friends"]

/-- The culinary keyword set of `detect_domain`. -/
def culinary_query_words : List String := ["menu", "dish", "recipe", "vegetarian", "buffet"]

/-- The hr_forms keyword set of `detect_domain`. -/
def hr_query_words : List String := ["form", "onboarding", "compliance", "hr", "signature", "fillable"]

/-- `detect_domain`: case-insensitive substring match against the three
keyword sets in priority order, defaulting to `"general"`. -/
def detect_domain (query : String) : String :=
  let query_lower := strLower query
  if travel_query_words.any (fun w => strContains query_lower w) then "travel"
  else if culinary_query_words.any (fun w => strContains query_lower w) then "culinary"
  else if hr_query_words.any (fun w => strContains query_lower w) then "hr_forms"
  else "general"

/-! ### `cosine_similarity` (embedding-service helper) -/

/-- `np.dot` on two (conformal) vectors. -/
def dotList (vec1 vec2 : List ℝ) : ℝ := (List.zipWith (fun a b => a * b) vec1 vec2).sum

/-- `np.linalg.norm`: the square root of the sum of squares. -/
noncomputable def normList (v : List ℝ) : ℝ := Real.sqrt ((v.map (fun x => x * x)).sum)

/-- `cosine_similarity`: `dot / (norm1 * norm2)` guarded to `0` when the
product of norms is zero (exact-real semantics of the float code). -/
noncomputable def cosine_similarity (vec1 vec2 : List ℝ) : ℝ :=
  if normList vec1 * normList vec2 ≠ 0 then
    dotList vec1 vec2 / (normList vec1 * normList vec2)
  else 0

/-! ### `apply_intelligent_scoring`

The base relevance of a chunk,
`cosine_similarity(get_embedding(chunk['text'][:500]), query_embedding)`,
is computed by the external embedding model for the fixed query; it is
abstracted as an oracle `sim : String → ℚ` applied to the truncated text. -/

/-- The travel bonus vocabulary (a Python set; matching is order-independent). -/
def travel_bonus_keywords : List String :=
  ["nightlife", "bars", "beach", "adventure", "coastal", "party", "entertainment",
   "music", "boat", "wine", "culinary", "restaurants", "cities", "guide", "tips"]

/-- The travel penalty vocabulary. -/
def travel_penalty_keywords : List String :=
  ["family-friendly", "children", "kids", "educational"]

/-- The travel document-bonus table, in its (insertion-ordered) iteration
order; the loop takes the first matching entry and breaks. -/
def travel_doc_bonuses : List (String × ℚ) :=
  [("Restaurants and Hotels", 0.25), ("Cities", 0.2), ("Things to Do", 0.15),
   ("Cuisine", 0.15), ("Tips and Tricks", 0.1)]

/-- The culinary exclusion vocabulary (meat/fish). -/
def culinary_negative_keywords : List String :=
  ["beef", "pork", "chicken", "lamb", "turkey", "veal", "prosciutto", "salami",
   "bacon", "ham", "sausage", "fish", "tuna", "seafood", "shrimp", "anchovies",
   "salmon", "lobster", "duck"]

/-- The culinary "substantial dish" bonus vocabulary. -/
def culinary_substantial_keywords : List String :=
  ["lasagna", "casserole", "sushi", "rolls", "curry", "stew", "risotto", "pasta",
   "cheese", "potatoes", "beans", "lentils", "rice", "falafel", "ratatouille",
   "gnocchi", "tikka"]

/-- The culinary gluten-indicator vocabulary. -/
def culinary_gluten_keywords : List String :=
  ["flour", "wheat", "bread", "pasta", "breadcrumbs", "pita", "baguette",
   "couscous", "tortilla", "freekeh", "roux", "beer"]

/-- The hr_forms bonus vocabulary. -/
def hr_forms_bonus_keywords : List String :=
  ["form", "fillable", "sign", "signature", "interactive", "field", "onboarding",
   "compliance", "checklist", "e-signature", "prepare forms"]

/-- The hr_forms penalty vocabulary. -/
def hr_forms_penalty_keywords : List String :=
  ["error", "unable", "failed", "recipe", "dish", "ingredients"]

/-- `(chunk['title'] + ' ' + chunk['text']).lower()`, the haystack for all
keyword matching. -/
def chunkTextLower (c : Chunk) : String := strLower (c.title ++ " " ++ c.text)

/-- The base relevance of a chunk: the similarity oracle applied to
`chunk['text'][:500]`. -/
def baseScore (sim : String → ℚ) (c : Chunk) : ℚ := sim (strTake c.text 500)

/-- The document-level travel bonus: the value of the first entry of
`travel_doc_bonuses` whose key is a substring of the document identifier
(case-sensitive, as Python `in` on the raw `chunk['document']`), else 0. -/
def travelDocBonus (document : String) : ℚ :=
  ((travel_doc_bonuses.find? (fun kb => strContains document kb.1)).map Prod.snd).getD 0

/-- The travel branch of the scoring loop: penalty, per-keyword bonuses,
then the document bonus. -/
def travelScored (sim : String → ℚ) (c : Chunk) : ScoredChunk :=
  let text_lower := chunkTextLower c
  let s1 := if travel_penalty_keywords.any (fun kw => strContains text_lower kw)
            then baseScore sim c - 1 else baseScore sim c
  let s2 := s1 + ((travel_bonus_keywords.filter
              (fun kw => strContains text_lower kw)).map (fun _ => (0.2 : ℚ))).sum
  ⟨c.title, c.text, c.document, c.page, s2 + travelDocBonus c.document⟩

/-- The culinary hard filter: does any negative keyword occur in the
lowercased title-plus-text? -/
def hasCulinaryNegative (c : Chunk) : Bool :=
  culinary_negative_keywords.any (fun kw => strContains (chunkTextLower c) kw)

/-- The culinary branch of the scoring loop (after the hard filter). -/
def culinaryScored (sim : String → ℚ) (c : Chunk) : ScoredChunk :=
  let text_lower := chunkTextLower c
  let substantial_bonus := ((culinary_substantial_keywords.filter
      (fun kw => strContains text_lower kw)).map (fun _ => (0.2 : ℚ))).sum
  let gluten_penalty := ((culinary_gluten_keywords.filter
      (fun kw => strContains text_lower kw)).map (fun _ => (0.05 : ℚ))).sum
  ⟨c.title, c.text, c.document, c.page, baseScore sim c + (substantial_bonus - gluten_penalty)⟩

/-- The hr_forms branch of the scoring loop. -/
def hrFormsScored (sim : String → ℚ) (c : Chunk) : ScoredChunk :=
  let text_lower := chunkTextLower c
  let bonus := ((hr_forms_bonus_keywords.filter
      (fun kw => strContains text_lower kw)).map (fun _ => (0.15 : ℚ))).sum
  let penalty := ((hr_forms_penalty_keywords.filter
      (fun kw => strContains text_lower kw)).map (fun _ => (0.1 : ℚ))).sum
  ⟨c.title, c.text, c.document, c.page, baseScore sim c + (bonus - penalty)⟩

/-- Any other domain: the base score unchanged. -/
def generalScored (sim : String → ℚ) (c : Chunk) : ScoredChunk :=
  ⟨c.title, c.text, c.document, c.page, baseScore sim c⟩

/-- One iteration of the scoring loop: `none` is the `continue` of the
culinary hard filter, `some` the chunk with its `final_score` set. -/
def scoreChunk (sim : String → ℚ) (domain : String) (c : Chunk) : Option ScoredChunk :=
  if domain = "travel" then some (travelScored sim c)
  else if domain = "culinary" then
    if hasCulinaryNegative c then none else some (culinaryScored sim c)
  else if domain = "hr_forms" then some (hrFormsScored sim c)
  else some (generalScored sim c)

/-- The comparison of `final_results.sort(key=..., reverse=True)`:
descending by `final_score`. -/
def scoreDesc (a b : ScoredChunk) : Bool := decide (b.final_score ≤ a.final_score)

/-- `apply_intelligent_scoring`: score each chunk in order (the culinary
filter dropping some), then stable-sort descending by `final_score`
(Python's `list.sort` is stable; any stable sort computes the same list). -/
def apply_intelligent_scoring (sim : String → ℚ) (chunks : List Chunk)
    (domain : String) : List ScoredChunk :=
  (chunks.filterMap (scoreChunk sim domain)).mergeSort scoreDesc

/-! ### Claim-side definitions and concrete data -/

/-- The chunk fields of a scored chunk (the record the scorer annotated). -/
def underlying (s : ScoredChunk) : Chunk := ⟨s.title, s.text, s.document, s.page⟩

/-- The heading test as claim C4 words it: identical to `is_heading` except
that only trailing colons are stripped before the stop-list lookup. -/
def is_heading_claim (body_font_size block_font_size : ℚ) (block_text : String) : Bool :=
  decide (body_font_size + 0.5 < block_font_size) &&
  decide ((pySplit block_text).length < 15) &&
  !(strEndsWith block_text ".") &&
  !(decide (stripColonsTrailing (strLower block_text) ∈ heading_stop_list))

/-- The travel final score as claim C6 states it: base similarity, minus
1.0 exactly once on a penalty keyword, plus 0.2 per distinct bonus keyword
present, plus the single first-match document bonus. -/
def travelScoreClaim (sim : String → ℚ) (c : Chunk) : ℚ :=
  baseScore sim c
  - (if travel_penalty_keywords.any (fun kw => strContains (chunkTextLower c) kw)
     then 1 else 0)
  + (0.2 : ℚ) * ((travel_bonus_keywords.filter
      (fun kw => strContains (chunkTextLower c) kw)).length : ℚ)
  + travelDocBonus c.document

/-- A chunk whose document identifier contains `"Cities"` with the casing of
the bonus table. -/
def c10_doc_upper : Chunk := ⟨"T", "plain body", "South of France - Cities.pdf", 1⟩

/-- The same chunk with the document identifier lowercased. -/
def c10_doc_lower : Chunk := ⟨"T", "plain body", "south of france - cities.pdf", 1⟩

/-- A chunk containing the negative keyword `"beef"`. -/
def beefChunk : Chunk := ⟨"Beef Stew", "a hearty beef stew for winter", "recipes.pdf", 1⟩

/-- A chunk free of negative keywords. -/
def saladChunk : Chunk := ⟨"Salad", "a light green salad", "recipes.pdf", 2⟩

/-- A concrete extraction-layer page: one block of one line of one span
carrying 21 words at size 12. -/
def sampleSpan : Span := ⟨12, "a a a a a a a a a a a a a a a a a a a a a"⟩

/-- The line holding `sampleSpan`. -/
def sampleLine : Line := ⟨[sampleSpan]⟩

/-- The block holding `sampleLine`. -/
def sampleBlock : Block := ⟨some [sampleLine]⟩

/-- The page holding `sampleBlock`. -/
def samplePage : Page := [sampleBlock]

/-- The single chunk the sample page yields. -/
def sampleParsedChunk : Chunk := ⟨"General Information", sampleSpan.text, "doc.pdf", 1⟩

/-- A document that extracts cleanly. -/
def sampleDoc : DocInput := ⟨"doc.pdf", [samplePage], false⟩

/-- A document whose extraction raises after yielding the sample page. -/
def failDoc : DocInput := ⟨"bad.pdf", [samplePage], true⟩

/-- A document whose extraction raises before yielding any page. -/
def openFailDoc : DocInput := ⟨"corrupt.pdf", [], true⟩

/-- A large-font block reading `":instructions"`. -/
def colonInstrBlock : Block := ⟨some [⟨[⟨12, ":instructions"⟩]⟩]⟩

/-- A large-font block reading `"Instructions"`. -/
def instrBlock : Block := ⟨some [⟨[⟨12, "Instructions"⟩]⟩]⟩

/-! ### Claims about `detect_domain` and `cosine_similarity` -/

/-- C7: `detect_domain` always returns one of the four domain values; it
answers `"travel"`, `"culinary"`, `"hr_forms"` exactly when the lowercased
query contains a keyword of the corresponding fixed set and no keyword of an
earlier set (priority order travel, culinary, hr_forms), and `"general"`
when none match; in particular any query containing `"trip"` (such as one
also containing `"menu"`) resolves to `"travel"`. -/
theorem c7_detect_domain (q : String) :
    (detect_domain q = "travel" ∨ detect_domain q = "culinary" ∨
      detect_domain q = "hr_forms" ∨ detect_domain q = "general") ∧
    (detect_domain q = "travel" ↔
      ∃ w ∈ travel_query_words, strContains (strLower q) w = true) ∧
    (detect_domain q = "culinary" ↔
      (¬ ∃ w ∈ travel_query_words, strContains (strLower q) w = true) ∧
      ∃ w ∈ culinary_query_words, strContains (strLower q) w = true) ∧
    (detect_domain q = "hr_forms" ↔
      (¬ ∃ w ∈ travel_query_words, strContains (strLower q) w = true) ∧
      (¬ ∃ w ∈ culinary_query_words, strContains (strLower q) w = true) ∧
      ∃ w ∈ hr_query_words, strContains (strLower q) w = true) ∧
    (detect_domain q = "general" ↔
      (¬ ∃ w ∈ travel_query_words, strContains (strLower q) w = true) ∧
      (¬ ∃ w ∈ culinary_query_words, strContains (strLower q) w = true) ∧
      (¬ ∃ w ∈ hr_query_words, strContains (strLower q) w = true)) ∧
    (strContains (strLower q) "trip" = true → detect_domain q = "travel") := by
  cases hb1 : travel_query_words.any (fun w => strContains (strLower q) w) with
  | true =>
    have h1 : ∃ w ∈ travel_query_words, strContains (strLower q) w = true :=
      List.any_eq_true.mp hb1
    have hd : detect_domain q = "travel" := by simp [detect_domain, hb1]
    have hne2 : detect_domain q ≠ "culinary" := by rw [hd]; decide
    have hne3 : detect_domain q ≠ "hr_forms" := by rw [hd]; decide
    have hne4 : detect_domain q ≠ "general" := by rw [hd]; decide
    exact ⟨Or.inl hd, iff_of_true hd h1,
      iff_of_false hne2 (fun h => h.1 h1),
      iff_of_false hne3 (fun h => h.1 h1),
      iff_of_false hne4 (fun h => h.1 h1),
      fun _ => hd⟩
  | false =>
    have h1 : ¬ ∃ w ∈ travel_query_words, strContains (strLower q) w = true := by
      rw [← List.any_eq_true, hb1]; exact Bool.false_ne_true
    have htrip : strContains (strLower q) "trip" = true → detect_domain q = "travel" :=
      fun ht => absurd ⟨"trip", by decide, ht⟩ h1
    cases hb2 : culinary_query_words.any (fun w => strContains (strLower q) w) with
    | true =>
      have h2 : ∃ w ∈ culinary_query_words, strContains (strLower q) w = true :=
        List.any_eq_true.mp hb2
      have hd : detect_domain q = "culinary" := by simp [detect_domain, hb1, hb2]
      have hne1 : detect_domain q ≠ "travel" := by rw [hd]; decide
      have hne3 : detect_domain q ≠ "hr_forms" := by rw [hd]; decide
      have hne4 : detect_domain q ≠ "general" := by rw [hd]; decide
      exact ⟨Or.inr (Or.inl hd), iff_of_false hne1 (fun h => h1 h),
        iff_of_true hd ⟨h1, h2⟩,
        iff_of_false hne3 (fun h => h.2.1 h2),
        iff_of_false hne4 (fun h => h.2.1 h2),
        htrip⟩
    | false =>
      have h2 : ¬ ∃ w ∈ culinary_query_words, strContains (strLower q) w = true := by
        rw [← List.any_eq_true, hb2]; exact Bool.false_ne_true
      cases hb3 : hr_query_words.any (fun w => strContains (strLower q) w) with
      | true =>
        have h3 : ∃ w ∈ hr_query_words, strContains (strLower q) w = true :=
          List.any_eq_true.mp hb3
        have hd : detect_domain q = "hr_forms" := by simp [detect_domain, hb1, hb2, hb3]
        have hne1 : detect_domain q ≠ "travel" := by rw [hd]; decide
        have hne2 : detect_domain q ≠ "culinary" := by rw [hd]; decide
        have hne4 : detect_domain q ≠ "general" := by rw [hd]; decide
        exact ⟨Or.inr (Or.inr (Or.inl hd)), iff_of_false hne1 (fun h => h1 h),
          iff_of_false hne2 (fun h => h2 h.2),
          iff_of_true hd ⟨h1, h2, h3⟩,
          iff_of_false hne4 (fun h => h.2.2 h3),
          htrip⟩
      | false =>
        have h3 : ¬ ∃ w ∈ hr_query_words, strContains (strLower q) w = true := by
          rw [← List.any_eq_true, hb3]; exact Bool.false_ne_true
        have hd : detect_domain q = "general" := by simp [detect_domain, hb1, hb2, hb3]
        have hne1 : detect_domain q ≠ "travel" := by rw [hd]; decide
        have hne2 : detect_domain q ≠ "culinary" := by rw [hd]; decide
        have hne3 : detect_domain q ≠ "hr_forms" := by rw [hd]; decide
        exact ⟨Or.inr (Or.inr (Or.inr hd)), iff_of_false hne1 (fun h => h1 h),
          iff_of_false hne2 (fun h => h2 h.2),
          iff_of_false hne3 (fun h => h3 h.2.2),
          iff_of_true hd ⟨h1, h2, h3⟩,
          htrip⟩

/-- C7 witness: the characterization applied to a concrete query containing
both `"trip"` and `"menu"`. -/
theorem c7_detect_domain_witness :
    (detect_domain "Plan a trip with a menu" = "travel" ∨
      detect_domain "Plan a trip with a menu" = "culinary" ∨
      detect_domain "Plan a trip with a menu" = "hr_forms" ∨
      detect_domain "Plan a trip with a menu" = "general") ∧
    (detect_domain "Plan a trip with a menu" = "travel" ↔
      ∃ w ∈ travel_query_words, strContains (strLower "Plan a trip with a menu") w = true) ∧
    (detect_domain "Plan a trip with a menu" = "culinary" ↔
      (¬ ∃ w ∈ travel_query_words, strContains (strLower "Plan a trip with a menu") w = true) ∧
      ∃ w ∈ culinary_query_words, strContains (strLower "Plan a trip with a menu") w = true) ∧
    (detect_domain "Plan a trip with a menu" = "hr_forms" ↔
      (¬ ∃ w ∈ travel_query_words, strContains (strLower "Plan a trip with a menu") w = true) ∧
      (¬ ∃ w ∈ culinary_query_words, strContains (strLower "Plan a trip with a menu") w = true) ∧
      ∃ w ∈ hr_query_words, strContains (strLower "Plan a trip with a menu") w = true) ∧
    (detect_domain "Plan a trip with a menu" = "general" ↔
      (¬ ∃ w ∈ travel_query_words, strContains (strLower "Plan a trip with a menu") w = true) ∧
      (¬ ∃ w ∈ culinary_query_words, strContains (strLower "Plan a trip with a menu") w = true) ∧
      (¬ ∃ w ∈ hr_query_words, strContains (strLower "Plan a trip with a menu") w = true)) ∧
    (strContains (strLower "Plan a trip with a menu") "trip" = true →
      detect_domain "Plan a trip with a menu" = "travel") :=
  c7_detect_domain "Plan a trip with a menu"

/-- C9: `cosine_similarity` is `dot / (|a|·|b|)` when the norm product is
nonzero, and exactly `0` whenever either vector has zero norm; in particular
the zero vector's similarity with any vector is `0` (the guard takes the
`else` branch instead of dividing). -/
theorem c9_cosine_similarity (d : ℕ) (vec1 vec2 : List ℝ) :
    (normList vec1 * normList vec2 ≠ 0 →
      cosine_similarity vec1 vec2 = dotList vec1 vec2 / (normList vec1 * normList vec2)) ∧
    (normList vec1 = 0 ∨ normList vec2 = 0 → cosine_similarity vec1 vec2 = 0) ∧
    cosine_similarity (List.replicate d 0) vec2 = 0 := by
  refine ⟨fun h => if_pos h, fun h => ?_, ?_⟩
  · have hz : normList vec1 * normList vec2 = 0 := by
      rcases h with h | h <;> simp [h]
    simp [cosine_similarity, hz]
  · have hz : normList (List.replicate d (0 : ℝ)) = 0 := by
      simp [normList, List.map_replicate, List.sum_replicate]
    simp [cosine_similarity, hz]

/-- C9 witness: the zero vector of dimension 2 against `[3, 4]`. -/
theorem c9_cosine_similarity_witness :
    cosine_similarity (List.replicate 2 (0 : ℝ)) [3, 4] = 0 :=
  (c9_cosine_similarity 2 [0, 0] [3, 4]).2.2

/-! ### Claim about the case-sensitivity of the travel document bonus -/

/-- C10: the document-bonus substring test is case-sensitive (it runs on the
raw `chunk['document']`), unlike keyword matching, which runs on the
lowercased title-plus-text: a document identifier containing `"Cities"`
receives the 0.2 bonus, the lowercased identifier receives none. -/
theorem c10_doc_bonus_case_sensitive :
    travelDocBonus "South of France - Cities.pdf" = 0.2 ∧
    travelDocBonus "south of france - cities.pdf" = 0 ∧
    apply_intelligent_scoring (fun _ => 0) [c10_doc_upper] "travel"
      = [⟨"T", "plain body", "South of France - Cities.pdf", 1, 0.2⟩] ∧
    apply_intelligent_scoring (fun _ => 0) [c10_doc_lower] "travel"
      = [⟨"T", "plain body", "south of france - cities.pdf", 1, 0⟩] := by
  have hu : travelDocBonus "South of France - Cities.pdf" = 0.2 := rfl
  have hl : travelDocBonus "south of france - cities.pdf" = 0 := rfl
  have hpen : ∀ c ∈ [c10_doc_upper, c10_doc_lower],
      travel_penalty_keywords.any (fun kw => strContains (chunkTextLower c) kw) = false := by
    decide
  have hbon : ∀ c ∈ [c10_doc_upper, c10_doc_lower],
      travel_bonus_keywords.filter (fun kw => strContains (chunkTextLower c) kw) = [] := by
    decide
  refine ⟨hu, hl, ?_, ?_⟩
  · have h1 : apply_intelligent_scoring (fun _ => 0) [c10_doc_upper] "travel"
        = [travelScored (fun _ => 0) c10_doc_upper] := by
      simp [apply_intelligent_scoring, scoreChunk]
    rw [h1]
    simp only [travelScored, hpen c10_doc_upper (by simp), hbon c10_doc_upper (by simp),
      Bool.false_eq_true, if_false, List.map_nil, List.sum_nil, baseScore]
    rw [show c10_doc_upper.document = "South of France - Cities.pdf" from rfl, hu]
    norm_num [c10_doc_upper]
  · have h1 : apply_intelligent_scoring (fun _ => 0) [c10_doc_lower] "travel"
        = [travelScored (fun _ => 0) c10_doc_lower] := by
      simp [apply_intelligent_scoring, scoreChunk]
    rw [h1]
    simp only [travelScored, hpen c10_doc_lower (by simp), hbon c10_doc_lower (by simp),
      Bool.false_eq_true, if_false, List.map_nil, List.sum_nil, baseScore]
    rw [show c10_doc_lower.document = "south of france - cities.pdf" from rfl, hl]
    norm_num [c10_doc_lower]

/-! ### Sorting infrastructure for the scorer claims -/

theorem scoreDesc_trans :
    ∀ a b c : ScoredChunk, scoreDesc a b = true → scoreDesc b c = true → scoreDesc a c = true := by
  intro a b c hab hbc
  simp only [scoreDesc, decide_eq_true_eq] at *
  exact le_trans hbc hab

theorem scoreDesc_total : ∀ a b : ScoredChunk, (scoreDesc a b || scoreDesc b a) = true := by
  intro a b
  simp only [scoreDesc, Bool.or_eq_true, decide_eq_true_eq]
  exact le_total _ _

/-- A stable sort leaves the relative order of any class of mutually
tied elements unchanged: filtering the sorted list by a predicate whose
holders are pairwise `scoreDesc`-related gives the same list as filtering
the input. -/
theorem filter_mergeSort_eq (p : ScoredChunk → Bool) (l : List ScoredChunk)
    (hp : ∀ a b, p a = true → p b = true → scoreDesc a b = true) :
    (l.mergeSort scoreDesc).filter p = l.filter p := by
  have hpw : (l.filter p).Pairwise (fun a b => scoreDesc a b = true) :=
    List.pairwise_of_forall_mem_list (fun a ha b hb =>
      hp a b (List.mem_filter.mp ha).2 (List.mem_filter.mp hb).2)
  have h1 : (l.filter p).Sublist (l.mergeSort scoreDesc) :=
    List.sublist_mergeSort scoreDesc_trans scoreDesc_total hpw (List.filter_sublist l)
  have h2 : ((l.filter p).filter p).Sublist ((l.mergeSort scoreDesc).filter p) := h1.filter p
  rw [List.filter_eq_self.mpr (fun a ha => (List.mem_filter.mp ha).2)] at h2
  have hlen : ((l.mergeSort scoreDesc).filter p).length = (l.filter p).length :=
    ((l.mergeSort_perm scoreDesc).filter p).length_eq
  exact (h2.eq_of_length hlen.symm).symm

/-- Whatever the domain branch, the scorer only sets `final_score`; the
chunk fields pass through unchanged. -/
theorem scoreChunk_underlying (sim : String → ℚ) (domain : String) (c : Chunk)
    (s : ScoredChunk) (h : scoreChunk sim domain c = some s) : underlying s = c := by
  unfold scoreChunk at h
  split_ifs at h <;>
    first
      | exact Option.noConfusion h
      | (injection h with h; subst h; rfl)

/-- The culinary branch of the loop, isolated: `continue` on a negative
keyword, otherwise the adjusted chunk. -/
theorem scoreChunk_culinary (sim : String → ℚ) (c : Chunk) :
    scoreChunk sim "culinary" c
      = if hasCulinaryNegative c then none else some (culinaryScored sim c) := rfl

/-- The culinary scoring pass is the map of the per-chunk adjustment over
the chunks that survive the hard filter. -/
theorem filterMap_scoreChunk_culinary (sim : String → ℚ) : ∀ chunks : List Chunk,
    chunks.filterMap (scoreChunk sim "culinary")
      = (chunks.filter (fun c => ! hasCulinaryNegative c)).map (culinaryScored sim)
  | [] => rfl
  | c :: cs => by
    cases hneg : hasCulinaryNegative c with
    | true =>
      simp [List.filterMap_cons, List.filter_cons, scoreChunk_culinary, hneg,
        filterMap_scoreChunk_culinary sim cs]
    | false =>
      simp [List.filterMap_cons, List.filter_cons, scoreChunk_culinary, hneg,
        filterMap_scoreChunk_culinary sim cs]

/-! ### Claims C2 and C3 about the scorer -/

/-- C2: under domain `"culinary"`, no chunk whose lowercased title-plus-text
contains a negative meat/fish keyword survives to the output, and the output
is, up to the final reordering, exactly the non-negative chunks each scored
once with its adjusted score. -/
theorem c2_culinary_hard_filter (sim : String → ℚ) (chunks : List Chunk) :
    (∀ s ∈ apply_intelligent_scoring sim chunks "culinary",
        hasCulinaryNegative (underlying s) = false) ∧
    (apply_intelligent_scoring sim chunks "culinary").Perm
      ((chunks.filter (fun c => ! hasCulinaryNegative c)).map (culinaryScored sim)) := by
  constructor
  · intro s hs
    rw [apply_intelligent_scoring, List.mem_mergeSort,
      filterMap_scoreChunk_culinary] at hs
    obtain ⟨c, hc, rfl⟩ := List.mem_map.mp hs
    have hcneg : hasCulinaryNegative c = false := by
      simpa using (List.mem_filter.mp hc).2
    have hu : underlying (culinaryScored sim c) = c := rfl
    rw [hu, hcneg]
  · rw [apply_intelligent_scoring, ← filterMap_scoreChunk_culinary]
    exact List.mergeSort_perm _ _

/-- C2 witness: the hard-filter theorem applied to a beef chunk and a salad
chunk under a constant similarity oracle. -/
theorem c2_culinary_hard_filter_witness :
    (∀ s ∈ apply_intelligent_scoring (fun _ => 0) [beefChunk, saladChunk] "culinary",
        hasCulinaryNegative (underlying s) = false) ∧
    (apply_intelligent_scoring (fun _ => 0) [beefChunk, saladChunk] "culinary").Perm
      (([beefChunk, saladChunk].filter (fun c => ! hasCulinaryNegative c)).map
        (culinaryScored (fun _ => 0))) :=
  c2_culinary_hard_filter (fun _ => 0) [beefChunk, saladChunk]

/-- C3: for every similarity oracle, chunk list and domain, the scorer's
output is non-increasing in `final_score`; chunks with equal final scores
keep their relative input order (the filtered subsequences at each score
value agree with the pre-sort pass, which itself traverses the input in
order, as witnessed by the sublist conjunct). -/
theorem c3_sorted_stable (sim : String → ℚ) (chunks : List Chunk) (domain : String) :
    (apply_intelligent_scoring sim chunks domain).Pairwise
      (fun a b => b.final_score ≤ a.final_score) ∧
    (∀ q : ℚ, (apply_intelligent_scoring sim chunks domain).filter
          (fun s => decide (s.final_score = q))
        = (chunks.filterMap (scoreChunk sim domain)).filter
          (fun s => decide (s.final_score = q))) ∧
    ((chunks.filterMap (scoreChunk sim domain)).map underlying).Sublist chunks := by
  refine ⟨?_, ?_, ?_⟩
  · have h := List.sorted_mergeSort scoreDesc_trans scoreDesc_total
      (chunks.filterMap (scoreChunk sim domain))
    exact h.imp (fun hab => by simpa [scoreDesc] using hab)
  · intro q
    exact filter_mergeSort_eq _ _ (fun a b ha hb => by
      simp only [decide_eq_true_eq] at ha hb
      simp [scoreDesc, ha, hb])
  · induction chunks with
    | nil => simp
    | cons c cs ih =>
      cases h : scoreChunk sim domain c with
      | none => simpa [List.filterMap_cons, h] using ih.cons c
      | some s =>
        have hu : underlying s = c := scoreChunk_underlying _ _ _ _ h
        simpa [List.filterMap_cons, h, hu] using ih.cons₂ c

/-- C3 witness: the ordering/stability theorem applied to two concrete
chunks under domain `"travel"`. -/
theorem c3_sorted_stable_witness :
    (apply_intelligent_scoring (fun _ => 0) [beefChunk, saladChunk] "travel").Pairwise
      (fun a b => b.final_score ≤ a.final_score) ∧
    (∀ q : ℚ, (apply_intelligent_scoring (fun _ => 0) [beefChunk, saladChunk] "travel").filter
          (fun s => decide (s.final_score = q))
        = ([beefChunk, saladChunk].filterMap (scoreChunk (fun _ => 0) "travel")).filter
          (fun s => decide (s.final_score = q))) ∧
    (([beefChunk, saladChunk].filterMap (scoreChunk (fun _ => 0) "travel")).map
      underlying).Sublist [beefChunk, saladChunk] :=
  c3_sorted_stable (fun _ => 0) [beefChunk, saladChunk] "travel"

/-! ### Claim C6: the travel score formula -/

theorem sum_map_const {α : Type} (l : List α) (q : ℚ) :
    (l.map (fun _ => q)).sum = q * l.length := by
  induction l with
  | nil => simp
  | cons a l ih => simp [ih]; ring

theorem travelScored_final (sim : String → ℚ) (c : Chunk) :
    (travelScored sim c).final_score = travelScoreClaim sim c := by
  unfold travelScored travelScoreClaim
  cases h : travel_penalty_keywords.any (fun kw => strContains (chunkTextLower c) kw) with
  | true => simp [h, sum_map_const]; ring
  | false => simp [h, sum_map_const]; ring

/-- C6: under domain `"travel"`, every chunk in the scorer's output carries
the final score of the claim's formula: base score, minus 1.0 once if a
penalty keyword occurs, plus 0.2 per distinct bonus keyword occurring in
the lowercased title-plus-text, plus the document bonus of the first
matching table entry. -/
theorem c6_travel_score (sim : String → ℚ) (chunks : List Chunk) :
    ∀ s ∈ apply_intelligent_scoring sim chunks "travel",
      s.final_score = travelScoreClaim sim (underlying s) := by
  intro s hs
  rw [apply_intelligent_scoring, List.mem_mergeSort] at hs
  obtain ⟨c, _, hsc⟩ := List.mem_filterMap.mp hs
  have hu : underlying s = c := scoreChunk_underlying _ _ _ _ hsc
  have ht : scoreChunk sim "travel" c = some (travelScored sim c) := rfl
  rw [ht] at hsc
  injection hsc with hsc
  subst hsc
  rw [hu]
  exact travelScored_final sim c

/-- C6 witness: a concrete chunk under a constant oracle. -/
theorem c6_travel_score_witness :
    travelScored (fun _ => 0) saladChunk
        ∈ apply_intelligent_scoring (fun _ => 0) [saladChunk] "travel" ∧
    (travelScored (fun _ => 0) saladChunk).final_score
        = travelScoreClaim (fun _ => 0) (underlying (travelScored (fun _ => 0) saladChunk)) := by
  have hmem : travelScored (fun _ => 0) saladChunk
      ∈ apply_intelligent_scoring (fun _ => 0) [saladChunk] "travel" := by
    simp [apply_intelligent_scoring, scoreChunk]
  exact ⟨hmem, c6_travel_score (fun _ => 0) [saladChunk] _ hmem⟩

/-! ### Claim C8: the body font size is the first-encountered mode -/

theorem le_foldr_max (ns : List ℕ) (n : ℕ) (hn : n ∈ ns) : n ≤ ns.foldr max 0 := by
  induction ns with
  | nil => simp at hn
  | cons a l ih =>
    rcases List.mem_cons.mp hn with rfl | h
    · exact le_max_left _ _
    · exact le_trans (ih h) (le_max_right _ _)

theorem foldr_max_mem (ns : List ℕ) (h : ns ≠ []) : ns.foldr max 0 ∈ ns := by
  induction ns with
  | nil => exact absurd rfl h
  | cons a l ih =>
    by_cases hl : l = []
    · subst hl; simp
    · rcases max_choice a (l.foldr max 0) with hc | hc

      · simp only [List.foldr, hc]; exact List.mem_cons_self _ _
      · simp only [List.foldr, hc]; exact List.mem_cons_of_mem _ (ih hl)

/-- `find?` returns the first-occurring element satisfying the predicate:
its first index is minimal among all satisfying elements. -/
theorem find?_first (p : ℚ → Bool) : ∀ (l : List ℚ) (m : ℚ), l.find? p = some m →
    ∀ y ∈ l, p y = true →
      l.findIdx (fun z => decide (z = m)) ≤ l.findIdx (fun z => decide (z = y)) := by
  intro l
  induction l with
  | nil => intro m h; simp at h
  | cons x xs ih =>
    intro m hfind y hy hpy
    cases hpx : p x with
    | true =>
      rw [List.find?_cons_of_pos _ hpx] at hfind
      injection hfind with hfind
      subst hfind
      rw [List.findIdx_cons]
      simp
    | false =>
      rw [List.find?_cons_of_neg _ (by simp [hpx])] at hfind
      have hm : p m = true := List.find?_some hfind
      have hmx : m ≠ x := fun he => by rw [he, hpx] at hm; exact Bool.noConfusion hm
      have hyx : y ≠ x := fun he => by rw [he, hpx] at hpy; exact Bool.noConfusion hpy
      have hymem : y ∈ xs := by
        rcases List.mem_cons.mp hy with rfl | hmem
        · exact absurd rfl hyx
        · exact hmem
      rw [List.findIdx_cons, List.findIdx_cons]
      have d1 : decide (x = m) = false := by simp [Ne.symm hmx]
      have d2 : decide (x = y) = false := by simp [Ne.symm hyx]
      simp only [d1, d2, cond_false]
      exact Nat.succ_le_succ (ih m hfind y hymem hpy)

/-- `most_common1` computes `Counter(...).most_common(1)[0][0]`: an element
of the list of maximal multiplicity whose first occurrence is earliest among
elements of maximal multiplicity. -/
theorem most_common1_spec (l : List ℚ) (h : l ≠ []) :
    most_common1 l ∈ l ∧
    (∀ y ∈ l, countOcc l y ≤ countOcc l (most_common1 l)) ∧
    (∀ y ∈ l, countOcc l y = countOcc l (most_common1 l) →
      l.findIdx (fun z => decide (z = most_common1 l))
        ≤ l.findIdx (fun z => decide (z = y))) := by
  have hex : ∃ x ∈ l, (countOcc l x == maxCount l) = true := by
    have hmem : maxCount l ∈ l.map (countOcc l) :=
      foldr_max_mem _ (by simpa using h)
    obtain ⟨x, hx, hcx⟩ := List.mem_map.mp hmem
    exact ⟨x, hx, by simp [hcx]⟩
  obtain ⟨m, hm⟩ := Option.isSome_iff_exists.mp (List.find?_isSome.mpr hex)
  have hmc : most_common1 l = m := by simp [most_common1, hm]
  have hpm : countOcc l m = maxCount l := by simpa using List.find?_some hm
  rw [hmc]
  refine ⟨List.mem_of_find?_eq_some hm, ?_, ?_⟩
  · intro y hy
    rw [hpm]
    exact le_foldr_max _ _ (List.mem_map_of_mem _ hy)
  · intro y hy hcy
    have hpy : (countOcc l y == maxCount l) = true := by simp [hcy, hpm]
    exact find?_first _ l m hm y hy hpy

/-- C8: on a page with at least one span, the body font size is the most
frequent one-decimal-rounded span size, and among sizes sharing the maximal
count it is the one encountered first (the counting structure's insertion
order is first-occurrence order). -/
theorem c8_body_font_mode (blocks : List Block) (h : pageFontSizes blocks ≠ []) :
    bodyFontSizeOf (pageFontSizes blocks) ∈ roundedSizes blocks ∧
    (∀ y ∈ roundedSizes blocks,
      countOcc (roundedSizes blocks) y
        ≤ countOcc (roundedSizes blocks) (bodyFontSizeOf (pageFontSizes blocks))) ∧
    (∀ y ∈ roundedSizes blocks,
      countOcc (roundedSizes blocks) y
          = countOcc (roundedSizes blocks) (bodyFontSizeOf (pageFontSizes blocks)) →
      (roundedSizes blocks).findIdx
          (fun z => decide (z = bodyFontSizeOf (pageFontSizes blocks)))
        ≤ (roundedSizes blocks).findIdx (fun z => decide (z = y))) := by
  have h2 : roundedSizes blocks ≠ [] := by
    simpa [roundedSizes] using h
  have hb : bodyFontSizeOf (pageFontSizes blocks) = most_common1 (roundedSizes blocks) := rfl
  rw [hb]
  exact most_common1_spec _ h2

/-- C8 witness: the mode characterization on the concrete sample page. -/
theorem c8_body_font_mode_witness :
    bodyFontSizeOf (pageFontSizes samplePage) ∈ roundedSizes samplePage ∧
    (∀ y ∈ roundedSizes samplePage,
      countOcc (roundedSizes samplePage) y
        ≤ countOcc (roundedSizes samplePage) (bodyFontSizeOf (pageFontSizes samplePage))) ∧
    (∀ y ∈ roundedSizes samplePage,
      countOcc (roundedSizes samplePage) y
          = countOcc (roundedSizes samplePage) (bodyFontSizeOf (pageFontSizes samplePage)) →
      (roundedSizes samplePage).findIdx
          (fun z => decide (z = bodyFontSizeOf (pageFontSizes samplePage)))
        ≤ (roundedSizes samplePage).findIdx (fun z => decide (z = y))) :=
  c8_body_font_mode samplePage (by decide)

/-! ### Claim C5: the minimum-length filter of the chunker -/

theorem flushChunk_words (doc_name : String) (pn : Nat) (st : WalkState) :
    ∀ c ∈ flushChunk doc_name pn st, 20 < (pySplit c.text).length := by
  intro c hc
  unfold flushChunk at hc
  split_ifs at hc with h
  · rcases List.mem_singleton.mp hc with rfl
    exact h.2
  · simp at hc

/-- Every chunk present after one block step was already present or was just
flushed under the flush guard. -/
theorem processBlock_chunks_sub (body : ℚ) (dn : String) (pn : Nat) (st : WalkState)
    (b : Block) (st2 : WalkState) (h : processBlock body dn pn st b = some st2) :
    ∀ c ∈ st2.chunks, c ∈ st.chunks ∨ c ∈ flushChunk dn pn st := by
  obtain ⟨bl⟩ := b
  cases bl with
  | none =>
    injection h with h
    subst h
    exact fun c hc => Or.inl hc
  | some lines =>
    simp only [processBlock] at h
    by_cases ht : blockTextOf lines = ""
    · rw [if_pos ht] at h
      injection h with h
      subst h
      exact fun c hc => Or.inl hc
    · rw [if_neg ht] at h
      cases lines with
      | nil =>
        injection h with h
        subst h
        exact fun c hc => Or.inl hc
      | cons l0 rest =>
        obtain ⟨sp⟩ := l0
        cases sp with
        | nil => exact Option.noConfusion h
        | cons s0 srest =>
          dsimp only at h
          by_cases hh : is_heading body (round1 s0.size)
              (blockTextOf (Line.mk (s0 :: srest) :: rest)) = true
          · rw [if_pos hh] at h
            injection h with h
            subst h
            exact fun c hc => List.mem_append.mp hc
          · rw [if_neg hh] at h
            injection h with h
            subst h
            exact fun c hc => Or.inl hc

theorem runBlocks_words (body : ℚ) (dn : String) (pn : Nat) :
    ∀ (bs : List Block) (st : WalkState),
      (∀ c ∈ st.chunks, 20 < (pySplit c.text).length) →
      ∀ c ∈ (runBlocks body dn pn st bs).1.chunks, 20 < (pySplit c.text).length := by
  intro bs
  induction bs with
  | nil => intro st hst; simpa [runBlocks] using hst
  | cons b bs ih =>
    intro st hst
    cases hpb : processBlock body dn pn st b with
    | none => simpa [runBlocks, hpb] using hst
    | some st2 =>
      have hst2 : ∀ c ∈ st2.chunks, 20 < (pySplit c.text).length := by
        intro c hc
        rcases processBlock_chunks_sub body dn pn st b st2 hpb c hc with h | h
        · exact hst c h
        · exact flushChunk_words dn pn st c h
      simpa [runBlocks, hpb] using ih st2 hst2

theorem processPage_words (dn : String) (pn : Nat) (blocks : List Block) :
    ∀ c ∈ (processPage dn pn blocks).1, 20 < (pySplit c.text).length := by
  intro c hc
  unfold processPage at hc
  by_cases h1 : blocks = []
  · rw [if_pos h1] at hc; simp at hc
  · rw [if_neg h1] at hc
    by_cases h2 : pageFontSizes blocks = []
    · rw [if_pos h2] at hc; simp at hc
    · rw [if_neg h2] at hc
      have hbase : ∀ c ∈ (runBlocks (bodyFontSizeOf (pageFontSizes blocks)) dn pn
          ⟨"General Information", [], []⟩ blocks).1.chunks, 20 < (pySplit c.text).length :=
        runBlocks_words _ _ _ blocks _ (by intro c hc2; simp at hc2)
      by_cases hcr : (runBlocks (bodyFontSizeOf (pageFontSizes blocks)) dn pn
          ⟨"General Information", [], []⟩ blocks).2 = true
      · rw [if_pos hcr] at hc
        exact hbase c hc
      · rw [if_neg hcr] at hc
        rcases List.mem_append.mp hc with h | h
        · exact hbase c h
        · exact flushChunk_words dn pn _ c h

theorem runPages_words (dn : String) : ∀ (ps : List Page) (n : Nat),
    ∀ c ∈ runPages dn n ps, 20 < (pySplit c.text).length := by
  intro ps
  induction ps with
  | nil => intro n c hc; simp [runPages] at hc
  | cons p ps ih =>
    intro n c hc
    unfold runPages at hc
    by_cases hcr : (processPage dn n p).2 = true
    · rw [if_pos hcr] at hc
      exact processPage_words dn n p c hc
    · rw [if_neg hcr] at hc
      rcases List.mem_append.mp hc with h | h
      · exact processPage_words dn n p c h
      · exact ih (n + 1) c h

/-- C5: every chunk `parse_pdfs` emits has strictly more than 20
whitespace-delimited words; a shorter accumulator is never emitted, at a
heading flush or at the end-of-page flush alike. -/
theorem c5_min_words (docs : List DocInput) :
    ∀ c ∈ parse_pdfs docs, 20 < (pySplit c.text).length := by
  intro c hc
  rw [parse_pdfs] at hc
  obtain ⟨d, _, hcd⟩ := List.mem_flatMap.mp hc
  exact runPages_words d.name d.pages 0 c hcd

/-! ### Concrete evaluation of the chunker on the sample page -/

theorem round1_12 : round1 12 = 12 := by
  have h : ((12 : ℚ) * 10) = ((120 : ℤ) : ℚ) := by norm_num
  rw [round1, h, round_intCast]
  norm_num

/-- A block step on a block whose (nonempty) text is not classified as a
heading appends the text to the accumulator and changes nothing else. -/
theorem processBlock_nonheading (body : ℚ) (nm : String) (pn : Nat) (st : WalkState)
    (l0 : Line) (rest : List Line) (s0 : Span) (srest : List Span)
    (hs : l0.spans = s0 :: srest)
    (ht : blockTextOf (l0 :: rest) ≠ "")
    (hh : is_heading body (round1 s0.size) (blockTextOf (l0 :: rest)) = false) :
    processBlock body nm pn st ⟨some (l0 :: rest)⟩
      = some { st with current_text := st.current_text ++ [blockTextOf (l0 :: rest)] } := by
  obtain ⟨sp⟩ := l0
  dsimp only at hs
  subst hs
  unfold processBlock
  dsimp only
  rw [if_neg ht, hh]
  simp

theorem bodyFontSize_sample : bodyFontSizeOf (pageFontSizes samplePage) = 12 := by
  have h1 : pageFontSizes samplePage = [12] := rfl
  rw [h1]
  unfold bodyFontSizeOf
  rw [show ([12] : List ℚ).map round1 = [12] by simp [round1_12]]
  simp [most_common1, countOcc, maxCount, List.find?]

theorem is_heading_sample : is_heading 12 12 sampleSpan.text = false := by
  unfold is_heading
  have h1 : ¬((12 : ℚ) + 0.5 < 12) := by norm_num
  simp [h1]

theorem processPage_sample (nm : String) :
    processPage nm 0 samplePage = ([⟨"General Information", sampleSpan.text, nm, 1⟩], false) := by
  have hbt : blockTextOf [sampleLine] = sampleSpan.text := by decide
  have hh : is_heading 12 (round1 sampleSpan.size) (blockTextOf [sampleLine]) = false := by
    rw [hbt, show sampleSpan.size = 12 from rfl, round1_12]
    exact is_heading_sample
  have hpb : processBlock 12 nm 0 ⟨"General Information", [], []⟩ sampleBlock
      = some ⟨"General Information", [blockTextOf [sampleLine]], []⟩ :=
    processBlock_nonheading 12 nm 0 _ sampleLine [] sampleSpan [] rfl (by decide) hh
  have hrb : runBlocks 12 nm 0 ⟨"General Information", [], []⟩ [sampleBlock]
      = (⟨"General Information", [blockTextOf [sampleLine]], []⟩, false) := by
    unfold runBlocks
    rw [hpb]
    rfl
  have hflush : flushChunk nm 0 ⟨"General Information", [blockTextOf [sampleLine]], []⟩
      = [⟨"General Information", sampleSpan.text, nm, 1⟩] := by
    unfold flushChunk
    rw [if_pos (show _ ∧ _ from by rw [hbt]; exact ⟨by decide, by decide⟩)]
    rw [show joined_text ⟨"General Information", [blockTextOf [sampleLine]], []⟩
        = sampleSpan.text by rw [hbt]; rfl]
  unfold processPage
  rw [if_neg (show ¬(samplePage = []) by decide),
    if_neg (show ¬(pageFontSizes samplePage = []) by decide)]
  dsimp only
  rw [bodyFontSize_sample, show (samplePage : Page) = [sampleBlock] from rfl, hrb]
  dsimp only
  rw [hflush]
  rfl

/-- One-document runs of the chunker on the sample page, for any document
name and any value of the failure flag. -/
theorem parse_pdfs_single (nm : String) (b : Bool) :
    parse_pdfs [⟨nm, [samplePage], b⟩]
      = [⟨"General Information", sampleSpan.text, nm, 1⟩] := by
  unfold parse_pdfs docChunks
  simp only [List.flatMap_cons, List.flatMap_nil, List.append_nil]
  unfold runPages
  rw [processPage_sample nm]
  dsimp only
  rfl

/-- C5 witness: the sample page's chunk, obtained from a concrete run. -/
theorem c5_min_words_witness :
    sampleParsedChunk ∈ parse_pdfs [sampleDoc] ∧
    20 < (pySplit sampleParsedChunk.text).length := by
  have hmem : sampleParsedChunk ∈ parse_pdfs [sampleDoc] := by
    rw [show parse_pdfs [sampleDoc]
        = [⟨"General Information", sampleSpan.text, "doc.pdf", 1⟩]
      from parse_pdfs_single "doc.pdf" false]
    exact List.mem_singleton.mpr rfl
  exact ⟨hmem, c5_min_words [sampleDoc] sampleParsedChunk hmem⟩

/-! ### Claim C1: failure semantics of the chunker -/

/-- C1 counterexample: a document whose extraction raises after one good
page was yielded.  Chunks from that page are in `parse_pdfs`'s output even
though the document failed, so the output is not the chunk list of the
non-failing documents (which here is empty). -/
theorem c1_counterexample :
    failDoc.fails = true ∧
    ([failDoc].filter (fun d => ! d.fails)).flatMap docChunks = [] ∧
    parse_pdfs [failDoc] ≠ [] := by
  refine ⟨rfl, rfl, ?_⟩
  rw [show parse_pdfs [failDoc]
      = [⟨"General Information", sampleSpan.text, "bad.pdf", 1⟩]
    from parse_pdfs_single "bad.pdf" true]
  exact List.cons_ne_nil _ _

/-- C1 (amended): when every failing document fails before yielding any page
(e.g. at open time), no chunk of a failing document is emitted and the
output is exactly the chunks of the non-failing documents, in order.  (A
failure after pages were yielded keeps those pages' chunks, as the
counterexample shows.) -/
theorem c1_skip_failed (docs : List DocInput)
    (h : ∀ d ∈ docs, d.fails = true → d.pages = []) :
    parse_pdfs docs = (docs.filter (fun d => ! d.fails)).flatMap docChunks := by
  induction docs with
  | nil => rfl
  | cons d ds ih =>
    have hds : ∀ x ∈ ds, x.fails = true → x.pages = [] :=
      fun x hx => h x (List.mem_cons_of_mem _ hx)
    cases hf : d.fails with
    | true =>
      have hp : d.pages = [] := h d (List.mem_cons_self _ _) hf
      have hdc : docChunks d = [] := by rw [docChunks, hp]; rfl
      rw [parse_pdfs, List.flatMap_cons, hdc, List.nil_append, List.filter_cons]
      simp only [hf, Bool.not_true, if_false]
      simpa [parse_pdfs] using ih hds
    | false =>
      rw [parse_pdfs, List.flatMap_cons, List.filter_cons]
      simp only [hf, Bool.not_false, if_true, List.flatMap_cons]
      have := ih hds
      rw [parse_pdfs] at this
      rw [this]

/-- C1 witness: a clean document next to a document failing at open time. -/
theorem c1_skip_failed_witness :
    (∀ d ∈ [sampleDoc, openFailDoc], d.fails = true → d.pages = []) ∧
    parse_pdfs [sampleDoc, openFailDoc]
      = (([sampleDoc, openFailDoc].filter (fun d => ! d.fails)).flatMap docChunks) := by
  have h : ∀ d ∈ [sampleDoc, openFailDoc], d.fails = true → d.pages = [] := by decide
  exact ⟨h, c1_skip_failed _ h⟩

/-! ### Claim C4: the heading classification rule -/

theorem is_heading_colonInstr : is_heading 10 12 ":instructions" = false := by
  unfold is_heading
  have h4 : decide (stripColons (strLower ":instructions") ∈ heading_stop_list) = true := by
    decide
  rw [h4]
  simp

/-- C4 counterexample: the block text `":instructions"` satisfies all four
conditions as the claim words them (only trailing colons stripped), yet the
code strips leading colons too, finds `"instructions"` in the stop list, and
classifies the block as body text, appending it to the accumulator. -/
theorem c4_counterexample :
    is_heading_claim 10 12 ":instructions" = true ∧
    is_heading 10 12 ":instructions" = false ∧
    processBlock 10 "doc.pdf" 0 ⟨"General Information", [], []⟩ colonInstrBlock
      = some ⟨"General Information", [":instructions"], []⟩ := by
  refine ⟨?_, is_heading_colonInstr, ?_⟩
  · unfold is_heading_claim
    have h1 : decide ((10 : ℚ) + 0.5 < 12) = true := decide_eq_true (by norm_num)
    rw [h1]
    decide
  · have hbt : blockTextOf [⟨[⟨12, ":instructions"⟩]⟩] = ":instructions" := by decide
    have hh : is_heading 10 (round1 (12 : ℚ)) (blockTextOf [⟨[⟨12, ":instructions"⟩]⟩])
        = false := by
      rw [round1_12, hbt]
      exact is_heading_colonInstr
    have h := processBlock_nonheading 10 "doc.pdf" 0 ⟨"General Information", [], []⟩
      ⟨[⟨12, ":instructions"⟩]⟩ [] ⟨12, ":instructions"⟩ [] rfl (by decide) hh
    rw [show (colonInstrBlock : Block) = ⟨some [⟨[⟨12, ":instructions"⟩]⟩]⟩ from rfl, h, hbt]
    rfl

/-- C4 (amended): a nonempty block is classified as a heading iff its first
span's rounded size exceeds the body font size by more than 0.5pt, its text
has fewer than 15 words, does not end with a period, and its lowercased text
with leading AND trailing colons stripped is not in the stop list; a
qualifying large-font `"Instructions"` block does not start a heading and is
appended to the accumulator. -/
theorem c4_heading_rule :
    (∀ (body_font_size block_font_size : ℚ) (block_text : String),
      is_heading body_font_size block_font_size block_text = true ↔
        (body_font_size + 0.5 < block_font_size ∧
         (pySplit block_text).length < 15 ∧
         strEndsWith block_text "." = false ∧
         stripColons (strLower block_text) ∉ heading_stop_list)) ∧
    (∀ (st : WalkState) (doc_name : String) (page_num : Nat),
      processBlock 10 doc_name page_num st instrBlock
        = some { st with current_text := st.current_text ++ ["Instructions"] }) := by
  constructor
  · intro b f t
    unfold is_heading
    simp [Bool.and_eq_true, decide_eq_true_eq, Bool.not_eq_true',
      decide_eq_false_iff_not, and_assoc]
  · intro st dn pn
    have hbt : blockTextOf [⟨[⟨12, "Instructions"⟩]⟩] = "Instructions" := by decide
    have hh : is_heading 10 (round1 (12 : ℚ)) (blockTextOf [⟨[⟨12, "Instructions"⟩]⟩])
        = false := by
      rw [round1_12, hbt]
      unfold is_heading
      have h4 : decide (stripColons (strLower "Instructions") ∈ heading_stop_list) = true := by
        decide
      rw [h4]
      simp
    have h := processBlock_nonheading 10 dn pn st
      ⟨[⟨12, "Instructions"⟩]⟩ [] ⟨12, "Instructions"⟩ [] rfl (by decide) hh
    rw [show (instrBlock : Block) = ⟨some [⟨[⟨12, "Instructions"⟩]⟩]⟩ from rfl, h, hbt]

end ProcessDocuments
